import Mathlib

/-!
Verification development for the ionize core algorithms:
the Onsager-Fuoss ionic-interaction correction to mobility
(src/ionize/Ion/mobility.py) and the equilibrium pH solver
(src/ionize/Solution/calc_pH.py).

Numbers are modelled as rationals.  Transcendental float operations
(sqrt, fractional powers, log10) and the numeric constants imported from
ionize.constants (which is outside the two core source files) are
abstract parameters collected in the `Constants` structure, so every
definition stays computable.
-/

namespace Ionize

/-- Modelled from the spec: numeric model constants and float operations
that `mobility.py` imports from `ionize.constants` and `math`, which are
outside the provided core sources (`pitts`, `faraday`,
`elementary_charge`, `lpm3`, the fixed six-entry `onsager_fuoss`
coefficient vector, the Celsius-to-Kelvin conversion, square root and
the powers x^(3/2) and x^(-3/2)). -/
structure Constants where
  faraday : ℚ
  pitts : ℚ
  elementary_charge : ℚ
  lpm3 : ℚ
  onsager_fuoss : List ℚ
  kelvin : ℚ → ℚ
  sqrt : ℚ → ℚ
  pow32 : ℚ → ℚ
  powNeg32 : ℚ → ℚ

/-- Solvent interface consumed by `mobility.py`: `viscosity(T)` and
`dielectric(T)`. -/
structure Solvent where
  viscosity : ℚ → ℚ
  dielectric : ℚ → ℚ

/-- The Nightingale-style calibration an ion may carry:
`_nightingale_function` together with `nightingale_data['min']` and
`nightingale_data['max']`. -/
structure NightingaleData where
  fn : ℚ → ℚ
  min : ℚ
  max : ℚ

/-- The slice of the Ion object model consumed by `mobility.py`.
`id` stands for the object identity Python uses for `in` / `.index`
membership tests; `ionizationFraction` is `ionization_fraction(pH)`. -/
structure Ion where
  id : ℕ
  valence : List ℚ
  nightingale : Option NightingaleData
  reference_temperature : ℚ
  reference_mobility : List ℚ
  solvent : Solvent
  ionizationFraction : ℚ → List ℚ

/-- The slice of the Solution object model consumed by `_interaction`:
ordered ion list, `concentration(ion)` lookup, current `pH`,
`ionic_strength`, context temperature, and the intrinsic
`_hydronium` / `_hydroxide` ions. -/
structure SolutionData where
  ions : List Ion
  concentration : Ion → ℚ
  pH : ℚ
  ionic_strength : ℚ
  temperature : ℚ
  hydronium : Ion
  hydroxide : Ion

/-- Error kinds of `mobility.py`: the AttributeError caught by
`actual_mobility` (missing interaction context) and the RuntimeError
raised by `_interaction` (Onsager-Fuoss divergence for non-mobile
ions). -/
inductive MobErr where
  | missingInteractionData
  | interactionDivergence
deriving DecidableEq

/-- `np.sign` on a rational. -/
def signQ (x : ℚ) : ℚ := if x < 0 then -1 else if x = 0 then 0 else 1

/-- Elementwise combination of three equal-length vectors, as numpy
broadcasting does in `onsager_fuoss_mobility`. -/
def zipWith3 (f : ℚ → ℚ → ℚ → ℚ) : List ℚ → List ℚ → List ℚ → List ℚ
  | a :: as, b :: bs, c :: cs => f a b c :: zipWith3 f as bs cs
  | _, _, _ => []

/-- `absolute_mobility` (mobility.py:48-68): Nightingale branch
`f(T) * 10.35e-11 / viscosity(T) * valence` when the ion carries a
nightingale function, else the viscosity-ratio branch
`viscosity(T_ref)/viscosity(T) * reference_mobility`. -/
def absolute_mobility (ion : Ion) (temperature : ℚ) : List ℚ :=
  match ion.nightingale with
  | some nd =>
      ion.valence.map (fun v =>
        nd.fn temperature * 10.35e-11 / ion.solvent.viscosity temperature * v)
  | none =>
      ion.reference_mobility.map (fun m =>
        ion.solvent.viscosity ion.reference_temperature /
          ion.solvent.viscosity temperature * m)

/-- Whether `absolute_mobility` emits its warning: in the Nightingale
branch the code warns when `not (min < T < max)`; the viscosity-ratio
branch never warns. -/
def absolute_mobility_warns (ion : Ion) (temperature : ℚ) : Bool :=
  match ion.nightingale with
  | some nd => !(decide (nd.min < temperature) && decide (temperature < nd.max))
  | none => false

/-- `robinson_stokes_mobility` (mobility.py:71-99):
`alpha = 1.705*(kelvin(T)/dielectric)^(-3/2)`,
`beta = 4.275e-9/sqrt(kelvin(T)*dielectric)/viscosity`,
`mobility -= (alpha*mobility + beta*sign(valence)) * sqrt(I)/(1+pitts*sqrt(I))`,
elementwise over the valence states. -/
def robinson_stokes_mobility (c : Constants) (ion : Ion)
    (ionic_strength temperature : ℚ) : List ℚ :=
  let dielectric := ion.solvent.dielectric temperature
  let viscosity := ion.solvent.viscosity temperature
  let alpha := 1.705 * c.powNeg32 (c.kelvin temperature / dielectric)
  let beta := 4.275e-9 / c.sqrt (c.kelvin temperature * dielectric) / viscosity
  List.zipWith
    (fun m v => m - (alpha * m + beta * signQ v) *
      (c.sqrt ionic_strength / (1 + c.pitts * c.sqrt ionic_strength)))
    (absolute_mobility ion temperature) ion.valence

/-- The ensemble built at the top of `_interaction` (mobility.py:133-137):
all solution ions with positive concentration (in order), then
`[_hydroxide, _hydronium]`, then the querying ion appended when not
already a member. -/
def ensemble (s : SolutionData) (ion : Ion) : List Ion :=
  let ions := s.ions.filter (fun i => decide (0 < s.concentration i)) ++
    [s.hydroxide, s.hydronium]
  if ions.any (fun i => i.id == ion.id) then ions else ions ++ [ion]

/-- `start_index` (mobility.py:139-143): the length of the concatenated
valence vectors of the ensemble members before `ion_index` (with the
explicit `ion_index != 0` special case of the code, since
`np.concatenate` rejects an empty argument list). -/
def startIndex (ions : List Ion) (idx : ℕ) : ℕ :=
  if idx ≠ 0 then ((ions.take idx).map Ion.valence).flatten.length else 0

/-- `omega` (mobility.py:146-147): concatenation over the ensemble of
`absolute_mobility() / valence`, all divided by the Faraday constant. -/
def omegaList (c : Constants) (s : SolutionData) (ion : Ion) : List ℚ :=
  (((ensemble s ion).map (fun i =>
      List.zipWith (fun m v => m / v)
        (absolute_mobility i s.temperature) i.valence)).flatten).map
    (fun x => x / c.faraday)

/-- `valences` (mobility.py:153): concatenated valence vectors. -/
def valencesList (s : SolutionData) (ion : Ion) : List ℚ :=
  ((ensemble s ion).map Ion.valence).flatten

/-- `concentrations` (mobility.py:154-156): concatenation of
`concentration(ion) * ionization_fraction(pH)` over the ensemble. -/
def concentrationsList (s : SolutionData) (ion : Ion) : List ℚ :=
  ((ensemble s ion).map (fun i =>
    (i.ionizationFraction s.pH).map (fun x => s.concentration i * x))).flatten

/-- `potential` (mobility.py:158):
`concentrations * valences**2 / (2 * ionic_strength)` elementwise. -/
def potentialList (s : SolutionData) (ion : Ion) : List ℚ :=
  List.zipWith (fun conc v => conc * v ^ 2 / (2 * s.ionic_strength))
    (concentrationsList s ion) (valencesList s ion)

/-- `h` (mobility.py:160): numpy evaluates
`potential * omega / (omega + omega[:, np.newaxis])` by broadcasting the
row vector `potential * omega` against the column vector
`omega[:, np.newaxis]`, so entry (i, j) is
`potential[j]*omega[j] / (omega[i] + omega[j])`. -/
def hMatrix (potential omega : List ℚ) : List (List ℚ) :=
  (List.range omega.length).map (fun i =>
    (List.range omega.length).map (fun j =>
      potential.getD j 0 * omega.getD j 0 / (omega.getD i 0 + omega.getD j 0)))

/-- Row sums of a matrix, `np.sum(h, 1)`. -/
def rowSums (m : List (List ℚ)) : List ℚ := m.map List.sum

/-- `B = 2 * (h + d) - np.identity(len(omega))` (mobility.py:161-162)
with `d = np.diag(np.sum(h, 1))`. -/
def bMatrix (potential omega : List ℚ) : List (List ℚ) :=
  let h := hMatrix potential omega
  let d := rowSums h
  (List.range omega.length).map (fun i =>
    (List.range omega.length).map (fun j =>
      2 * ((h.getD i []).getD j 0 + (if i = j then d.getD i 0 else 0)) -
        (if i = j then 1 else 0)))

/-- Matrix-vector product `np.dot(B, r)`. -/
def matVec (m : List (List ℚ)) (v : List ℚ) : List ℚ :=
  m.map (fun row => (List.zipWith (fun a b => a * b) row v).sum)

/-- The seed column `r[:, 0]` (mobility.py:165-166):
`valences - (sum(valences*potential)/sum(potential/omega))/omega`. -/
def r0 (valences potential omega : List ℚ) : List ℚ :=
  let s1 := (List.zipWith (fun a b => a * b) valences potential).sum
  let s2 := (List.zipWith (fun a b => a / b) potential omega).sum
  List.zipWith (fun v w => v - (s1 / s2) / w) valences omega

/-- The iteration columns `r[:, i]` (mobility.py:168-169):
`r_0` is the seed and `r_{i} = B @ r_{i-1}`. -/
def rCol (B : List (List ℚ)) (seed : List ℚ) : ℕ → List ℚ
  | 0 => seed
  | m + 1 => matVec B (rCol B seed m)

/-- `factor = np.dot(onsager_fuoss, np.transpose(r))` (mobility.py:171):
entry k is the dot product of the fixed coefficient vector with the six
iteration values at charge state k. -/
def factorList (of : List ℚ) (B : List (List ℚ)) (seed : List ℚ) (n : ℕ) :
    List ℚ :=
  (List.range n).map (fun k =>
    ((List.range 6).map (fun m => of.getD m 0 * (rCol B seed m).getD k 0)).sum)

/-- `_interaction` (mobility.py:126-173): build the ensemble and index
range, compute omega, raise the divergence error when any omega entry is
zero, otherwise run the fixed six-column relaxation and return the slice
`factor[start_index:end_index]` for the querying ion. -/
def interaction (c : Constants) (s : SolutionData) (ion : Ion) :
    Except MobErr (List ℚ) :=
  let ions := ensemble s ion
  let ion_index := ions.findIdx (fun i => i.id == ion.id)
  let start_index := startIndex ions ion_index
  let end_index := start_index + ion.valence.length
  let omega := omegaList c s ion
  if omega.any (fun x => x == 0) then
    Except.error MobErr.interactionDivergence
  else
    let valences := valencesList s ion
    let potential := potentialList s ion
    let B := bMatrix potential omega
    let seed := r0 valences potential omega
    let factor := factorList c.onsager_fuoss B seed omega.length
    Except.ok ((factor.drop start_index).take (end_index - start_index))

/-- `onsager_fuoss_mobility` (mobility.py:102-123).  The context is the
enclosing solution; when the ion has none, context resolution raises the
AttributeError modelled as `missingInteractionData`.  Otherwise the
`_interaction` result (or its divergence error) is combined with the
temperature-corrected coefficients. -/
def onsager_fuoss_mobility (c : Constants) (sol : Option SolutionData)
    (ion : Ion) : Except MobErr (List ℚ) :=
  match sol with
  | none => Except.error MobErr.missingInteractionData
  | some s =>
    match interaction c s ion with
    | Except.error e => Except.error e
    | Except.ok inter =>
      let temperature := s.temperature
      let ionic_strength := s.ionic_strength
      let dielectric := ion.solvent.dielectric temperature
      let viscosity := ion.solvent.viscosity temperature
      let alpha := 1.971e6 * c.sqrt 2 / c.pow32 (c.kelvin temperature * dielectric)
      let beta := 28.98 * c.sqrt 2 * c.faraday * c.elementary_charge * c.lpm3 /
        c.sqrt (c.kelvin temperature * dielectric) / viscosity
      Except.ok (zipWith3
        (fun m f v => m - (alpha * m * f * |v| + beta * signQ v) *
          (c.sqrt ionic_strength / (1 + c.pitts * c.sqrt ionic_strength)))
        (absolute_mobility ion temperature) inter ion.valence)

/-- `actual_mobility` (mobility.py:38-45): try the Onsager-Fuoss path;
only the AttributeError (missing interaction data) is caught, emitting
the warning (the Bool) and returning the Robinson-Stokes estimate; the
divergence RuntimeError propagates. -/
def actual_mobility (c : Constants) (sol : Option SolutionData) (ion : Ion)
    (ionic_strength temperature : ℚ) : Except MobErr (List ℚ × Bool) :=
  match onsager_fuoss_mobility c sol ion with
  | Except.ok v => Except.ok (v, false)
  | Except.error MobErr.missingInteractionData =>
      Except.ok (robinson_stokes_mobility c ion ionic_strength temperature, true)
  | Except.error MobErr.interactionDivergence =>
      Except.error MobErr.interactionDivergence

/-! ## The equilibrium pH solver (src/ionize/Solution/calc_pH.py) -/

/-- The slice of the Ion object model consumed by `calc_pH`: the charge
state list `z`, the acidity-coefficient products `L(I)`, and the charge
sequence `z0()`. -/
structure PIon where
  z : List ℤ
  L : ℚ → List ℚ
  z0 : List ℤ

/-- The slice of the Solution object model consumed by `calc_pH`:
ordered ion list, concentrations, `Kw_eff(I)`, and
`_H.activity_coefficient(I, [1])[0]`. -/
structure PSolution where
  ions : List PIon
  concentrations : List ℚ
  Kw_eff : ℚ → ℚ
  activity_coefficient_H : ℚ → ℚ

/-- `MaxCol = max([max(i.z)-min(i.z)+2 for i in obj.ions])`
(calc_pH.py:18).  The fold mirrors Python's `max` on a nonempty list;
`calc_pH` itself refuses an empty ion list, where `max([])` raises. -/
def MaxCol (ions : List PIon) : ℕ :=
  (ions.map (fun i =>
    ((i.z.max?.getD 0) - (i.z.min?.getD 0) + 2).toNat)).foldl max 0

/-- Right-pad a coefficient row with zeros to width `n`, as the
assignment `LMat[i, 0:len(z)+1] = L(I)` into a zero row of width
`MaxCol` does (calc_pH.py:22-25). -/
def padTo (xs : List ℚ) (n : ℕ) : List ℚ :=
  (xs ++ List.replicate (n - xs.length) 0).take n

/-- `numpy.convolve`: full discrete convolution, output length
`len(xs) + len(ys) - 1`. -/
def convolve (xs ys : List ℚ) : List ℚ :=
  (List.range (xs.length + ys.length - 1)).map (fun k =>
    ((List.range (k + 1)).map (fun i => xs.getD i 0 * ys.getD (k - i) 0)).sum)

/-- The matrix of padded acidity rows `LMat` (calc_pH.py:22-25). -/
def LMat (obj : PSolution) (I : ℚ) : List (List ℚ) :=
  obj.ions.map (fun i => padTo (i.L I) (MaxCol obj.ions))

/-- `Q`: convolution of all `LMat` rows, then with the water
dissociation term `[-Kw_eff(I), 0, 1]` (calc_pH.py:28-33). -/
def Qpoly (obj : PSolution) (I : ℚ) : List ℚ :=
  convolve ((LMat obj I).foldl convolve [1]) [-obj.Kw_eff I, 0, 1]

/-- `Mmod` for ion `i` (calc_pH.py:41-44): `LMat` with row `i` scaled
elementwise by the padded charge sequence `z0()`. -/
def Mmod (obj : PSolution) (I : ℚ) (i : ℕ) : List (List ℚ) :=
  (List.range (LMat obj I).length).map (fun j =>
    if j = i then
      List.zipWith (fun a b => a * b) ((LMat obj I).getD j [])
        (padTo (((obj.ions.getD i ⟨[], fun _ => [], []⟩).z0).map
          (fun z => (z : ℚ))) (MaxCol obj.ions))
    else (LMat obj I).getD j [])

/-- `Pi` for ion `i` (calc_pH.py:46-50): convolution of all `Mmod`
rows, then with `[0, 1]`. -/
def Ppoly_row (obj : PSolution) (I : ℚ) (i : ℕ) : List ℚ :=
  convolve [0, 1] ((Mmod obj I i).foldl convolve [1])

/-- `PMat` (calc_pH.py:37-53): one `Pi` row per concentration entry. -/
def PMat (obj : PSolution) (I : ℚ) : List (List ℚ) :=
  (List.range obj.concentrations.length).map (fun i => Ppoly_row obj I i)

/-- `P` (calc_pH.py:56-58): concentration-weighted column sums of
`PMat`. -/
def Ppoly (obj : PSolution) (I : ℚ) : List ℚ :=
  (List.range ((PMat obj I).getD 0 []).length).map (fun k =>
    ((List.range obj.concentrations.length).map (fun i =>
      obj.concentrations.getD i 0 * ((PMat obj I).getD i []).getD k 0)).sum)

/-- `SizeDiff = Q.shape[1] - PMat.shape[1]` (calc_pH.py:61). -/
def SizeDiff (obj : PSolution) (I : ℚ) : ℤ :=
  ((Qpoly obj I).length : ℤ) - (((PMat obj I).getD 0 []).length : ℤ)

/-- The padding step applied to `P` (calc_pH.py:62-63): when
`SizeDiff > 0`, `P = list(P) + [0]*SizeDiff`. -/
def Ppadded (obj : PSolution) (I : ℚ) : List ℚ :=
  if 0 < SizeDiff obj I then
    Ppoly obj I ++ List.replicate (SizeDiff obj I).toNat 0
  else Ppoly obj I

/-- The padding step applied to `Q` (calc_pH.py:64-65): the branch runs
only when `SizeDiff < 0`, where Python's `[0]*SizeDiff` is the empty
list, so `Q` gains no entries. -/
def Qpadded (obj : PSolution) (I : ℚ) : List ℚ :=
  if SizeDiff obj I < 0 then Qpoly obj I ++ [] else Qpoly obj I

/-- The combined polynomial in ascending powers (calc_pH.py:68-72):
a zero vector of length `max(len(P), len(Q))` receiving the clipped
slice additions of `P` and `Q`. -/
def poly_ascending (obj : PSolution) (I : ℚ) : List ℚ :=
  let P := Ppadded obj I
  let Q := Qpadded obj I
  let n := max P.length Q.length
  (List.range n).map (fun k =>
    (if k < P.length then P.getD k 0 else 0) +
      (if k < Q.length then Q.getD k 0 else 0))

/-- The polynomial reversed into descending-power order for the root
solver (calc_pH.py:75-76). -/
def poly_desc (obj : PSolution) (I : ℚ) : List ℚ :=
  (poly_ascending obj I).reverse

/-- The root selection (calc_pH.py:80): the first returned root that is
strictly positive with zero imaginary part; roots are complex numbers
modelled as (re, im) pairs. -/
def selectRoot (roots : List (ℚ × ℚ)) : Option (ℚ × ℚ) :=
  (roots.filter (fun r => decide (0 < r.1) && decide (r.2 = 0))).head?

/-- `calc_pH` (calc_pH.py:5-83).  `rootsOf` models the external
`numpy.roots` solver and `log10` the float logarithm.  An empty ion
list makes `max([...])` at calc_pH.py:18 raise (modelled `none`), and a
missing positive real root makes the `[0]` index at calc_pH.py:80 raise
(modelled `none`); otherwise the result is
`-log10(cH * activity_coefficient(I, [1])[0])`. -/
def calc_pH (log10 : ℚ → ℚ) (rootsOf : List ℚ → List (ℚ × ℚ))
    (obj : PSolution) (I : ℚ) : Option ℚ :=
  if obj.ions.isEmpty then none
  else
    match selectRoot (rootsOf (poly_desc obj I)) with
    | none => none
    | some r => some (-(log10 (r.1 * obj.activity_coefficient_H I)))

/-! ## Concrete sample inputs used by counterexamples and witnesses -/

/-- A trivial solvent with unit viscosity and dielectric. -/
def solventEx : Solvent := ⟨fun _ => 1, fun _ => 1⟩

/-- Sample constants: Faraday 1, pitts 1, unit scalars, the coefficient
vector (1,0,0,0,0,0), and identity transcendental maps. -/
def cEx : Constants :=
  ⟨1, 1, 1, 1, [1, 0, 0, 0, 0, 0], fun t => t, fun x => x, fun x => x, fun x => x⟩

/-- A hydroxide-like ion: one charge state of valence -1 and absolute
mobility -2. -/
def hydroxideEx : Ion := ⟨0, [-1], none, 25, [-2], solventEx, fun _ => [1]⟩

/-- A hydronium-like ion: one charge state of valence 1 and absolute
mobility 1. -/
def hydroniumEx : Ion := ⟨1, [1], none, 25, [1], solventEx, fun _ => [1]⟩

/-- A solution context holding no explicit ions, with ionic strength
1/2 and concentration lookup 3 for the hydroxide and 5 otherwise. -/
def sEx : SolutionData :=
  ⟨[], fun i => if i.id = 0 then 3 else 5, 7, 1/2, 25, hydroniumEx, hydroxideEx⟩

/-- A non-mobile hydroxide-like ion: absolute mobility 0 at valence -1. -/
def hydroxideZero : Ion := ⟨0, [-1], none, 25, [0], solventEx, fun _ => [1]⟩

/-- A solution context whose hydroxide member is non-mobile. -/
def sZero : SolutionData :=
  ⟨[], fun _ => 1, 7, 1/2, 25, hydroniumEx, hydroxideZero⟩

/-- A Nightingale calibration valid on [0, 100]. -/
def ndEx : NightingaleData := ⟨fun _ => 1, 0, 100⟩

/-- An ion carrying the sample Nightingale calibration. -/
def ionNightingale : Ion := ⟨2, [1], some ndEx, 25, [1], solventEx, fun _ => [1]⟩

/-- An ion with no calibration data, for the Robinson-Stokes claims. -/
def ionPlain : Ion := ⟨3, [1], none, 25, [2], solventEx, fun _ => [1]⟩

/-- A monoprotic sample ion for the pH claims. -/
def pionEx : PIon := ⟨[-1], fun _ => [1, 2], [-1, 0]⟩

/-- A second sample ion with two charge states. -/
def pionEx2 : PIon := ⟨[-2, -1], fun _ => [1, 2, 3], [-2, -1, 0]⟩

/-- A sample solution with two ions of differing charge-state counts. -/
def pobjEx : PSolution := ⟨[pionEx, pionEx2], [1, 2], fun _ => 1e-14, fun _ => 1⟩

/-- A sample root list holding exactly one strictly positive real
root, (1/100, 0). -/
def rootsEx : List ℚ → List (ℚ × ℚ) :=
  fun _ => [(-1, 0), (1/2, 3), (1/100, 0)]

/-- Sample ion A for the ensemble-exclusion scenario. -/
def ionA : Ion := ⟨10, [1], none, 25, [1], solventEx, fun _ => [1]⟩

/-- Sample ion B (two charge states) for the ensemble-exclusion
scenario. -/
def ionB : Ion := ⟨11, [1, 2], none, 25, [1, 1], solventEx, fun _ => [1, 1]⟩

/-- A concentration lookup giving ion A concentration 0 and ion B
concentration 2. -/
def concW : Ion → ℚ := fun i => if i.id = 11 then 2 else 0

/-! ## Helper lemmas -/

theorem getD_range_map {α : Type} (f : ℕ → α) (d : α) {n i : ℕ} (h : i < n) :
    ((List.range n).map f).getD i d = f i := by
  simp [List.getD_eq_getElem?_getD, List.getElem?_range h]

theorem getD_zipWith (f : ℚ → ℚ → ℚ) (as bs : List ℚ) {i : ℕ}
    (h1 : i < as.length) (h2 : i < bs.length) :
    (List.zipWith f as bs).getD i 0 = f (as.getD i 0) (bs.getD i 0) := by
  simp [List.getD_eq_getElem?_getD, List.getElem?_zipWith,
    List.getElem?_eq_getElem h1, List.getElem?_eq_getElem h2]

theorem zipWith_left_of_le {α β : Type} (as : List α) (bs : List β)
    (h : as.length ≤ bs.length) :
    List.zipWith (fun a _ => a) as bs = as := by
  induction as generalizing bs with
  | nil => simp
  | cons a as ih =>
    cases bs with
    | nil => simp at h
    | cons b bs =>
      simp only [List.zipWith]
      simp only [List.length_cons, Nat.add_le_add_iff_right] at h
      rw [ih bs h]

theorem getD_drop (l : List ℚ) (m k : ℕ) :
    (l.drop m).getD k 0 = l.getD (m + k) 0 := by
  simp [List.getD_eq_getElem?_getD, List.getElem?_drop]

theorem getD_take (l : List ℚ) (m k : ℕ) (h : k < m) :
    (l.take m).getD k 0 = l.getD k 0 := by
  simp [List.getD_eq_getElem?_getD, List.getElem?_take, h]

theorem getD_map_sum (l : List (List ℚ)) {i : ℕ} (h : i < l.length) :
    (l.map List.sum).getD i 0 = (l.getD i []).sum := by
  rw [List.getD_eq_getElem _ _ (by simpa using h), List.getD_eq_getElem _ _ h,
    List.getElem_map]

/-- Evaluation of `_interaction` on the concrete sample context: the
ensemble is (hydroxide, hydronium), omega = (2, 1), potential = (3, 5),
and the hydronium slice of the correction factor is (9/13). -/
theorem interactionEx_eval :
    interaction cEx sEx hydroniumEx = Except.ok [9/13] := by
  norm_num [interaction, omegaList, ensemble, absolute_mobility, cEx, sEx, hydroniumEx,
    hydroxideEx, solventEx, startIndex, valencesList, concentrationsList, potentialList,
    factorList, rCol, r0, bMatrix, hMatrix, rowSums, matVec, List.range_succ,
    List.findIdx_cons, Bool.cond_eq_ite, beq_iff_eq]

/-! ## Claim theorems -/

/-- Claim C6: for an ion whose Onsager-Fuoss interaction data is
unavailable (no enclosing solution context), `actual_mobility` returns
exactly the `robinson_stokes_mobility` value together with the emitted
diagnostic, and never aborts. -/
theorem claim_C6_fallback (c : Constants) (ion : Ion)
    (ionic_strength temperature : ℚ) :
    actual_mobility c none ion ionic_strength temperature =
      Except.ok (robinson_stokes_mobility c ion ionic_strength temperature,
        true) := rfl

/-- Claim C7 (code behavior at the failing input): `calc_pH` applied to
pure water — a solution with no ions — does not return pH 7: the
`max([...])` over the empty ion list at calc_pH.py:18 raises, modelled
as `none`, for any root solver, logarithm, activity coefficient and
ionic strength, with `Kw_eff` constantly 1e-14. -/
theorem claim_C7_code_behavior (log10 : ℚ → ℚ)
    (rootsOf : List ℚ → List (ℚ × ℚ)) (act : ℚ → ℚ) (I : ℚ) :
    calc_pH log10 rootsOf ⟨[], [], fun _ => 1e-14, act⟩ I = none := rfl

/-- Claim C8: at ionic strength 0 the Robinson-Stokes correction term
vanishes (since sqrt 0 = 0) and `robinson_stokes_mobility 0 T` equals
`absolute_mobility T`. -/
theorem claim_C8_zero_strength (c : Constants) (ion : Ion) (T : ℚ)
    (hsqrt : c.sqrt 0 = 0)
    (hlen : (absolute_mobility ion T).length ≤ ion.valence.length) :
    robinson_stokes_mobility c ion 0 T = absolute_mobility ion T := by
  unfold robinson_stokes_mobility
  simp only [hsqrt, zero_div, mul_zero, add_zero, sub_zero]
  exact zipWith_left_of_le _ _ hlen

/-- Claim C8 witness at a concrete ion and temperature. -/
theorem claim_C8_witness :
    cEx.sqrt 0 = 0 ∧
    (absolute_mobility ionPlain 30).length ≤ ionPlain.valence.length ∧
    robinson_stokes_mobility cEx ionPlain 0 30 = absolute_mobility ionPlain 30 := by
  refine ⟨?_, ?_, ?_⟩
  · decide
  · decide
  · exact claim_C8_zero_strength cEx ionPlain 30 (by decide) (by decide)

/-- Claim C10: when the Onsager-Fuoss path succeeds, `actual_mobility`
does not read its ionic-strength and temperature arguments: any two
argument choices give the same result (two-run noninterference). -/
theorem claim_C10_noninterference (c : Constants) (sol : Option SolutionData)
    (ion : Ion) (I1 T1 I2 T2 : ℚ)
    (h : (onsager_fuoss_mobility c sol ion).isOk = true) :
    actual_mobility c sol ion I1 T1 = actual_mobility c sol ion I2 T2 := by
  cases heq : onsager_fuoss_mobility c sol ion with
  | ok v => simp [actual_mobility, heq]
  | error e => rw [heq] at h; simp [Except.isOk, Except.toBool] at h

/-- Claim C10 witness: a concrete context where the Onsager-Fuoss path
succeeds, with two distinct argument pairs. -/
theorem claim_C10_witness :
    (onsager_fuoss_mobility cEx (some sEx) hydroniumEx).isOk = true ∧
    actual_mobility cEx (some sEx) hydroniumEx 1 2 =
      actual_mobility cEx (some sEx) hydroniumEx 3 4 := by
  have h : (onsager_fuoss_mobility cEx (some sEx) hydroniumEx).isOk = true := by
    simp [onsager_fuoss_mobility, interactionEx_eval, Except.isOk, Except.toBool]
  exact ⟨h, claim_C10_noninterference cEx (some sEx) hydroniumEx 1 2 3 4 h⟩

/-- Claim C2: an ensemble containing a charge state with zero absolute
mobility and nonzero valence makes `_interaction` raise the divergence
error, and `actual_mobility` propagates exactly that error kind for all
argument values — it is never converted into the Robinson-Stokes
fallback. -/
theorem claim_C2_divergence (c : Constants) (s : SolutionData) (ion : Ion)
    (h : ∃ i ∈ ensemble s ion, ∃ k, k < i.valence.length ∧
      k < (absolute_mobility i s.temperature).length ∧
      (absolute_mobility i s.temperature).getD k 0 = 0 ∧
      i.valence.getD k 0 ≠ 0) :
    interaction c s ion = Except.error MobErr.interactionDivergence ∧
    ∀ I T, actual_mobility c (some s) ion I T =
      Except.error MobErr.interactionDivergence := by
  obtain ⟨i, hi, k, hkv, hkm, hmob, -⟩ := h
  have hklen : k < (List.zipWith (fun m v => m / v)
      (absolute_mobility i s.temperature) i.valence).length := by
    rw [List.length_zipWith]; omega
  have hz : (0 : ℚ) ∈ List.zipWith (fun m v => m / v)
      (absolute_mobility i s.temperature) i.valence := by
    have hval : (List.zipWith (fun m v => m / v)
        (absolute_mobility i s.temperature) i.valence).getD k 0 = 0 := by
      rw [getD_zipWith _ _ _ hkm hkv]
      show (absolute_mobility i s.temperature).getD k 0 / i.valence.getD k 0 = 0
      rw [hmob, zero_div]
    rw [← hval, List.getD_eq_getElem _ _ hklen]
    exact List.getElem_mem hklen
  have hmem : (0 : ℚ) ∈ omegaList c s ion := by
    have hflat : (0 : ℚ) ∈ ((ensemble s ion).map (fun i =>
        List.zipWith (fun m v => m / v)
          (absolute_mobility i s.temperature) i.valence)).flatten :=
      List.mem_flatten.mpr ⟨_, List.mem_map_of_mem _ hi, hz⟩
    have : (0 : ℚ) / c.faraday = 0 := zero_div _
    exact this ▸ List.mem_map_of_mem _ hflat
  have hany : (omegaList c s ion).any (fun x => x == 0) = true :=
    List.any_eq_true.mpr ⟨0, hmem, by simp⟩
  have hint : interaction c s ion = Except.error MobErr.interactionDivergence := by
    simp [interaction, hany]
  refine ⟨hint, fun I T => ?_⟩
  simp [actual_mobility, onsager_fuoss_mobility, hint]

/-- Claim C2 witness: a concrete ensemble whose hydroxide member has
absolute mobility 0 at valence -1. -/
theorem claim_C2_witness :
    (∃ i ∈ ensemble sZero hydroniumEx, ∃ k, k < i.valence.length ∧
      k < (absolute_mobility i sZero.temperature).length ∧
      (absolute_mobility i sZero.temperature).getD k 0 = 0 ∧
      i.valence.getD k 0 ≠ 0) ∧
    interaction cEx sZero hydroniumEx = Except.error MobErr.interactionDivergence ∧
    ∀ I T, actual_mobility cEx (some sZero) hydroniumEx I T =
      Except.error MobErr.interactionDivergence := by
  have h : ∃ i ∈ ensemble sZero hydroniumEx, ∃ k, k < i.valence.length ∧
      k < (absolute_mobility i sZero.temperature).length ∧
      (absolute_mobility i sZero.temperature).getD k 0 = 0 ∧
      i.valence.getD k 0 ≠ 0 := by
    refine ⟨hydroxideZero, ?_, 0, ?_, ?_, ?_, ?_⟩
    · simp [ensemble, sZero, hydroniumEx, hydroxideZero]
    · simp [hydroxideZero]
    · simp [absolute_mobility, hydroxideZero]
    · norm_num [absolute_mobility, hydroxideZero, sZero, solventEx]
    · norm_num [hydroxideZero]
  exact ⟨h, claim_C2_divergence cEx sZero hydroniumEx h⟩

/-- Claim C9 counterexample: with a calibration valid on [0, 100],
temperature 0 lies inside the closed range [min, max] yet the code does
emit the diagnostic (it warns whenever `min < T < max` fails, including
at the boundary), so "diagnostic exactly when T outside [min, max]" is
false. -/
theorem claim_C9_counterexample :
    ¬(absolute_mobility_warns ionNightingale 0 = true ↔
      ((0 : ℚ) < ndEx.min ∨ ndEx.max < (0 : ℚ))) := by
  have h1 : absolute_mobility_warns ionNightingale 0 = true := by
    norm_num [absolute_mobility_warns, ionNightingale, ndEx]
  intro h
  have h2 := h.mp h1
  norm_num [ndEx] at h2

/-- Claim C9 as amended: for an ion on the Nightingale calibration, the
diagnostic is emitted exactly when T falls outside the open interval
(min, max) — that is, when `min < T < max` fails, which includes the
boundary points — and in all cases the returned value is
`f(T) * 10.35e-11 / viscosity(T) * valence`. -/
theorem claim_C9_amended (ion : Ion) (nd : NightingaleData) (T : ℚ)
    (h : ion.nightingale = some nd) :
    (absolute_mobility_warns ion T = true ↔ ¬(nd.min < T ∧ T < nd.max)) ∧
    absolute_mobility ion T = ion.valence.map (fun v =>
      nd.fn T * 10.35e-11 / ion.solvent.viscosity T * v) := by
  constructor
  · by_cases h1 : nd.min < T <;> by_cases h2 : T < nd.max <;>
      simp [absolute_mobility_warns, h, h1, h2]
  · simp [absolute_mobility, h]

/-- Claim C9 witness at a concrete calibrated ion and temperature 50. -/
theorem claim_C9_witness :
    ionNightingale.nightingale = some ndEx ∧
    ((absolute_mobility_warns ionNightingale 50 = true ↔
        ¬(ndEx.min < 50 ∧ (50 : ℚ) < ndEx.max)) ∧
      absolute_mobility ionNightingale 50 = ionNightingale.valence.map (fun v =>
        ndEx.fn 50 * 10.35e-11 / ionNightingale.solvent.viscosity 50 * v)) :=
  ⟨rfl, claim_C9_amended ionNightingale ndEx 50 rfl⟩

/-- Claim C5: the Onsager-Fuoss ensemble is exactly the solution's
positive-concentration ions in insertion order, then the
hydroxide/hydronium pair, then the querying ion when not already
present; index ranges come from cumulative valence-vector lengths; and
in the two-ion scenario with conc(A) = 0 < conc(B), A is excluded from
the ensemble used to correct B. -/
theorem claim_C5_ensemble (s : SolutionData) (ion : Ion) :
    (ensemble s ion =
      s.ions.filter (fun i => decide (0 < s.concentration i)) ++
        [s.hydroxide, s.hydronium] ++
        (if (s.ions.filter (fun i => decide (0 < s.concentration i)) ++
            [s.hydroxide, s.hydronium]).any (fun i => i.id == ion.id)
          then [] else [ion])) ∧
    (∀ idx, startIndex (ensemble s ion) idx =
      (((ensemble s ion).take idx).map (fun i => i.valence.length)).sum) ∧
    (∀ A B : Ion, ∀ conc : Ion → ℚ, ∀ pH I T : ℚ, ∀ hyd hydx : Ion,
      conc A = 0 → 0 < conc B → A.id ≠ B.id → A.id ≠ hydx.id → A.id ≠ hyd.id →
      ensemble ⟨[A, B], conc, pH, I, T, hyd, hydx⟩ B = [B, hydx, hyd] ∧
      A ∉ ensemble ⟨[A, B], conc, pH, I, T, hyd, hydx⟩ B) := by
  refine ⟨?_, ?_, ?_⟩
  · by_cases hany : ((s.ions.filter (fun i => decide (0 < s.concentration i)) ++
        [s.hydroxide, s.hydronium]).any (fun i => i.id == ion.id)) = true
    · simp [ensemble, hany]
    · rw [Bool.not_eq_true] at hany
      simp [ensemble, hany, List.append_assoc]
  · intro idx
    by_cases h0 : idx = 0
    · simp [startIndex, h0]
    · simp [startIndex, h0, List.length_flatten, List.map_map, Function.comp_def]
  · intro A B conc pH I T hyd hydx hA hB hAB hAx hAh
    have hfilt : List.filter (fun i => decide (0 < conc i)) [A, B] = [B] := by
      simp [List.filter_cons, hA, hB]
    have hens : ensemble ⟨[A, B], conc, pH, I, T, hyd, hydx⟩ B = [B, hydx, hyd] := by
      simp [ensemble, hfilt]
    refine ⟨hens, ?_⟩
    rw [hens]
    intro hmem
    simp [List.mem_cons] at hmem
    rcases hmem with h | h | h
    · exact hAB (congrArg Ion.id h)
    · exact hAx (congrArg Ion.id h)
    · exact hAh (congrArg Ion.id h)

/-- Claim C5 witness: applying the ensemble characterisation to the
concrete two-ion scenario with conc(A) = 0 and conc(B) = 2. -/
theorem claim_C5_witness :
    concW ionA = 0 ∧ 0 < concW ionB ∧ ionA.id ≠ ionB.id ∧
    ionA.id ≠ hydroxideEx.id ∧ ionA.id ≠ hydroniumEx.id ∧
    (ensemble ⟨[ionA, ionB], concW, 7, 1, 25, hydroniumEx, hydroxideEx⟩ ionB =
        [ionB, hydroxideEx, hydroniumEx] ∧
      ionA ∉ ensemble ⟨[ionA, ionB], concW, 7, 1, 25, hydroniumEx, hydroxideEx⟩ ionB) := by
  have h1 : concW ionA = 0 := by simp [concW, ionA]
  have h2 : (0 : ℚ) < concW ionB := by norm_num [concW, ionB]
  have h3 : ionA.id ≠ ionB.id := by decide
  have h4 : ionA.id ≠ hydroxideEx.id := by decide
  have h5 : ionA.id ≠ hydroniumEx.id := by decide
  exact ⟨h1, h2, h3, h4, h5,
    (claim_C5_ensemble sEx hydroniumEx).2.2 ionA ionB concW 7 1 25
      hydroniumEx hydroxideEx h1 h2 h3 h4 h5⟩

/-- Claim C3: when the returned root list holds exactly one strictly
positive root with zero imaginary part, `calc_pH` returns
`-log10(cH * activity_coefficient(I, [1])[0])` where cH is that unique
root. -/
theorem claim_C3_root_selection (log10 : ℚ → ℚ)
    (rootsOf : List ℚ → List (ℚ × ℚ)) (obj : PSolution) (I : ℚ) (r : ℚ × ℚ)
    (hne : obj.ions.isEmpty = false)
    (hmem : r ∈ rootsOf (poly_desc obj I))
    (hpos : 0 < r.1) (him : r.2 = 0)
    (huniq : ∀ r' ∈ rootsOf (poly_desc obj I), 0 < r'.1 → r'.2 = 0 → r' = r) :
    calc_pH log10 rootsOf obj I =
      some (-(log10 (r.1 * obj.activity_coefficient_H I))) := by
  have hrf : r ∈ (rootsOf (poly_desc obj I)).filter
      (fun x => decide (0 < x.1) && decide (x.2 = 0)) :=
    List.mem_filter.mpr ⟨hmem, by simp [hpos, him]⟩
  have hsel : selectRoot (rootsOf (poly_desc obj I)) = some r := by
    unfold selectRoot
    cases hfl : (rootsOf (poly_desc obj I)).filter
        (fun x => decide (0 < x.1) && decide (x.2 = 0)) with
    | nil => rw [hfl] at hrf; exact absurd hrf (List.not_mem_nil r)
    | cons x xs =>
      have hx : x ∈ (rootsOf (poly_desc obj I)).filter
          (fun x => decide (0 < x.1) && decide (x.2 = 0)) :=
        hfl ▸ List.mem_cons_self x xs
      obtain ⟨hxl, hxp⟩ := List.mem_filter.mp hx
      simp only [Bool.and_eq_true, decide_eq_true_eq] at hxp
      simp [huniq x hxl hxp.1 hxp.2]
  simp [calc_pH, hne, hsel]

/-- Claim C3 witness: the sample root list with unique positive real
root (1/100, 0) and the identity logarithm. -/
theorem claim_C3_witness :
    pobjEx.ions.isEmpty = false ∧
    ((1/100 : ℚ), (0 : ℚ)) ∈ rootsEx (poly_desc pobjEx 0) ∧
    (0 : ℚ) < 1/100 ∧
    (∀ r' ∈ rootsEx (poly_desc pobjEx 0), 0 < r'.1 → r'.2 = 0 →
      r' = ((1/100 : ℚ), (0 : ℚ))) ∧
    calc_pH (fun x => x) rootsEx pobjEx 0 =
      some (-((fun x => x) ((1/100 : ℚ) * pobjEx.activity_coefficient_H 0))) := by
  have hne : pobjEx.ions.isEmpty = false := rfl
  have hmem : ((1/100 : ℚ), (0 : ℚ)) ∈ rootsEx (poly_desc pobjEx 0) := by
    simp [rootsEx]
  have hpos : (0 : ℚ) < 1/100 := by norm_num
  have huniq : ∀ r' ∈ rootsEx (poly_desc pobjEx 0), 0 < r'.1 → r'.2 = 0 →
      r' = ((1/100 : ℚ), (0 : ℚ)) := by
    intro r' hr' h1 h2
    simp [rootsEx] at hr'
    rcases hr' with h | h | h <;> subst h <;> norm_num [Prod.ext_iff] at h1 h2 ⊢
  exact ⟨hne, hmem, hpos, huniq,
    claim_C3_root_selection (fun x => x) rootsEx pobjEx 0 ((1/100 : ℚ), (0 : ℚ))
      hne hmem hpos rfl huniq⟩

theorem length_padTo (xs : List ℚ) (n : ℕ) : (padTo xs n).length = n := by
  simp [padTo]
  omega

theorem length_convolve (xs ys : List ℚ) :
    (convolve xs ys).length = xs.length + ys.length - 1 := by
  simp [convolve]

theorem length_foldl_convolve (M : ℕ) (hM : 1 ≤ M) (rows : List (List ℚ)) :
    ∀ acc : List ℚ, (∀ r ∈ rows, r.length = M) → 1 ≤ acc.length →
      (rows.foldl convolve acc).length = acc.length + rows.length * (M - 1) := by
  induction rows with
  | nil => intro acc _ _; simp
  | cons r rs ih =>
    intro acc hrows hacc
    have hr : r.length = M := hrows r (List.mem_cons_self r rs)
    have hlen : (convolve acc r).length = acc.length + M - 1 := by
      rw [length_convolve, hr]
    have h1 : 1 ≤ (convolve acc r).length := by omega
    rw [List.foldl_cons,
      ih (convolve acc r) (fun x hx => hrows x (List.mem_cons_of_mem r hx)) h1,
      hlen, List.length_cons]
    have hexp : (rs.length + 1) * (M - 1) = rs.length * (M - 1) + (M - 1) := by
      ring
    omega

theorem LMat_row_length (obj : PSolution) (I : ℚ) :
    ∀ row ∈ LMat obj I, row.length = MaxCol obj.ions := by
  intro row hrow
  obtain ⟨i, -, rfl⟩ := List.mem_map.mp hrow
  exact length_padTo _ _

theorem length_LMat (obj : PSolution) (I : ℚ) :
    (LMat obj I).length = obj.ions.length := by
  simp [LMat]

theorem Mmod_row_length (obj : PSolution) (I : ℚ) (i : ℕ) :
    ∀ row ∈ Mmod obj I i, row.length = MaxCol obj.ions := by
  intro row hrow
  simp only [Mmod] at hrow
  obtain ⟨j, hj, rfl⟩ := List.mem_map.mp hrow
  have hj' : j < (LMat obj I).length := List.mem_range.mp hj
  have hrow' : (LMat obj I).getD j [] ∈ LMat obj I := by
    rw [List.getD_eq_getElem _ _ hj']
    exact List.getElem_mem hj'
  have hbase := LMat_row_length obj I _ hrow'
  by_cases hji : j = i
  · subst hji
    rw [if_pos rfl, List.length_zipWith, hbase, length_padTo, Nat.min_self]
  · rw [if_neg hji]
    exact hbase

theorem length_Mmod (obj : PSolution) (I : ℚ) (i : ℕ) :
    (Mmod obj I i).length = obj.ions.length := by
  simp [Mmod, length_LMat]

theorem length_Ppoly_row (obj : PSolution) (I : ℚ) (i : ℕ)
    (hM : 1 ≤ MaxCol obj.ions) :
    (Ppoly_row obj I i).length =
      obj.ions.length * (MaxCol obj.ions - 1) + 2 := by
  unfold Ppoly_row
  rw [length_convolve,
    length_foldl_convolve (MaxCol obj.ions) hM (Mmod obj I i) [1]
      (Mmod_row_length obj I i) (by simp),
    length_Mmod]
  simp
  omega

theorem length_Qpoly (obj : PSolution) (I : ℚ) (hM : 1 ≤ MaxCol obj.ions) :
    (Qpoly obj I).length = obj.ions.length * (MaxCol obj.ions - 1) + 3 := by
  unfold Qpoly
  rw [length_convolve,
    length_foldl_convolve (MaxCol obj.ions) hM (LMat obj I) [1]
      (LMat_row_length obj I) (by simp),
    length_LMat]
  simp
  omega

/-- Claim C4: after the padding step and before the coefficientwise
summation, `P` and `Q` have equal length; `P` (always the shorter, by
exactly one entry) is padded with trailing zeros and `Q` is unchanged. -/
theorem claim_C4_padding (obj : PSolution) (I : ℚ)
    (hne : obj.ions ≠ [])
    (hcons : obj.concentrations.length = obj.ions.length)
    (_hL : ∀ i ∈ obj.ions, (i.L I).length = i.z.length + 1)
    (hz : ∀ i ∈ obj.ions, i.z.length + 1 ≤ MaxCol obj.ions)
    (_hz0 : ∀ i ∈ obj.ions, i.z0.length ≤ MaxCol obj.ions) :
    (Ppadded obj I).length = (Qpadded obj I).length ∧
    (Ppoly obj I).length < (Qpoly obj I).length ∧
    Ppadded obj I = Ppoly obj I ++
      List.replicate ((Qpoly obj I).length - (Ppoly obj I).length) 0 ∧
    Qpadded obj I = Qpoly obj I := by
  obtain ⟨i0, hi0⟩ := List.exists_mem_of_ne_nil obj.ions hne
  have hM : 1 ≤ MaxCol obj.ions := le_trans (by omega) (hz i0 hi0)
  have hc1 : 0 < obj.concentrations.length := by
    rw [hcons]
    exact List.length_pos.mpr hne
  have hPMat0 : (PMat obj I).getD 0 [] = Ppoly_row obj I 0 := by
    unfold PMat
    exact getD_range_map _ _ hc1
  have hwidth : ((PMat obj I).getD 0 []).length =
      obj.ions.length * (MaxCol obj.ions - 1) + 2 := by
    rw [hPMat0]
    exact length_Ppoly_row obj I 0 hM
  have hPlen : (Ppoly obj I).length =
      obj.ions.length * (MaxCol obj.ions - 1) + 2 := by
    unfold Ppoly
    rw [List.length_map, List.length_range, hwidth]
  have hQlen : (Qpoly obj I).length =
      obj.ions.length * (MaxCol obj.ions - 1) + 3 := length_Qpoly obj I hM
  have hsd : SizeDiff obj I = 1 := by
    unfold SizeDiff
    rw [hQlen, hwidth]
    push_cast
    ring
  have hPpad : Ppadded obj I = Ppoly obj I ++ List.replicate 1 0 := by
    unfold Ppadded
    rw [hsd]
    norm_num
  have hQpad : Qpadded obj I = Qpoly obj I := by
    unfold Qpadded
    rw [hsd]
    norm_num
  refine ⟨?_, ?_, ?_, hQpad⟩
  · rw [hPpad, hQpad, List.length_append, List.length_replicate, hPlen, hQlen]
  · rw [hPlen, hQlen]
    omega
  · rw [hPpad, hPlen, hQlen]
    congr 1
    congr 1
    omega

/-- Claim C4 witness: the two-ion sample solution with charge-state
counts 1 and 2. -/
theorem claim_C4_witness :
    pobjEx.ions ≠ [] ∧
    pobjEx.concentrations.length = pobjEx.ions.length ∧
    (∀ i ∈ pobjEx.ions, (i.L 0).length = i.z.length + 1) ∧
    (∀ i ∈ pobjEx.ions, i.z.length + 1 ≤ MaxCol pobjEx.ions) ∧
    (∀ i ∈ pobjEx.ions, i.z0.length ≤ MaxCol pobjEx.ions) ∧
    ((Ppadded pobjEx 0).length = (Qpadded pobjEx 0).length ∧
      (Ppoly pobjEx 0).length < (Qpoly pobjEx 0).length ∧
      Ppadded pobjEx 0 = Ppoly pobjEx 0 ++
        List.replicate ((Qpoly pobjEx 0).length - (Ppoly pobjEx 0).length) 0 ∧
      Qpadded pobjEx 0 = Qpoly pobjEx 0) := by
  have hne : pobjEx.ions ≠ [] := by simp [pobjEx]
  have hcons : pobjEx.concentrations.length = pobjEx.ions.length := rfl
  have hL : ∀ i ∈ pobjEx.ions, (i.L 0).length = i.z.length + 1 := by
    intro i hi
    simp [pobjEx] at hi
    rcases hi with rfl | rfl <;> rfl
  have hz : ∀ i ∈ pobjEx.ions, i.z.length + 1 ≤ MaxCol pobjEx.ions := by
    intro i hi
    simp [pobjEx] at hi
    rcases hi with rfl | rfl <;> decide
  have hz0 : ∀ i ∈ pobjEx.ions, i.z0.length ≤ MaxCol pobjEx.ions := by
    intro i hi
    simp [pobjEx] at hi
    rcases hi with rfl | rfl <;> decide
  exact ⟨hne, hcons, hL, hz, hz0, claim_C4_padding pobjEx 0 hne hcons hL hz hz0⟩

/-- Claim C1 counterexample: on a concrete ensemble (potential (3, 5),
omega (2, 1)) the interaction matrix entry h(0, 1) built by the code is
`potential[1]*omega[1]/(omega[0]+omega[1]) = 5/3`, not the claimed
`potential[0]*omega[0]/(omega[0]+omega[1]) = 2`: numpy's broadcasting
indexes the numerator by the column, not the row. -/
theorem claim_C1_counterexample :
    ((hMatrix (potentialList sEx hydroniumEx)
        (omegaList cEx sEx hydroniumEx)).getD 0 []).getD 1 0 ≠
      (potentialList sEx hydroniumEx).getD 0 0 *
          (omegaList cEx sEx hydroniumEx).getD 0 0 /
        ((omegaList cEx sEx hydroniumEx).getD 0 0 +
          (omegaList cEx sEx hydroniumEx).getD 1 0) := by
  norm_num [hMatrix, potentialList, omegaList, concentrationsList, valencesList,
    ensemble, absolute_mobility, cEx, sEx, hydroniumEx, hydroxideEx, solventEx,
    List.range_succ]

/-- Claim C1 as amended: the interaction matrix satisfies
`h[i,j] = potential[j]*omega[j] / (omega[i]+omega[j])` (the transpose of
the claimed orientation — the only change the counterexample forces);
`B = 2*(h+d) - Identity` with `d` the diagonal of h's row sums; the six
columns obey `r_i = B @ r_{i-1}` for i = 1..5 with no convergence check;
and the returned correction factor is the dot product of the fixed
coefficient vector with the six columns, sliced to the querying ion's
charge-state index range. -/
theorem claim_C1_amended (c : Constants) (s : SolutionData) (ion : Ion) :
    (∀ i j, i < (omegaList c s ion).length → j < (omegaList c s ion).length →
      ((hMatrix (potentialList s ion) (omegaList c s ion)).getD i []).getD j 0 =
        (potentialList s ion).getD j 0 * (omegaList c s ion).getD j 0 /
          ((omegaList c s ion).getD i 0 + (omegaList c s ion).getD j 0)) ∧
    (∀ i j, i < (omegaList c s ion).length → j < (omegaList c s ion).length →
      ((bMatrix (potentialList s ion) (omegaList c s ion)).getD i []).getD j 0 =
        2 * (((hMatrix (potentialList s ion) (omegaList c s ion)).getD i []).getD j 0 +
          (if i = j then
            ((hMatrix (potentialList s ion) (omegaList c s ion)).getD i []).sum
          else 0)) - (if i = j then 1 else 0)) ∧
    (∀ m, m < 5 →
      rCol (bMatrix (potentialList s ion) (omegaList c s ion))
          (r0 (valencesList s ion) (potentialList s ion) (omegaList c s ion))
          (m + 1) =
        matVec (bMatrix (potentialList s ion) (omegaList c s ion))
          (rCol (bMatrix (potentialList s ion) (omegaList c s ion))
            (r0 (valencesList s ion) (potentialList s ion) (omegaList c s ion))
            m)) ∧
    (∀ res, interaction c s ion = Except.ok res →
      ∀ k, k < res.length →
        res.getD k 0 = ((List.range 6).map (fun m =>
          c.onsager_fuoss.getD m 0 *
            (rCol (bMatrix (potentialList s ion) (omegaList c s ion))
              (r0 (valencesList s ion) (potentialList s ion)
                (omegaList c s ion)) m).getD
              (startIndex (ensemble s ion)
                ((ensemble s ion).findIdx (fun i => i.id == ion.id)) + k)
              0)).sum) := by
  refine ⟨?_, ?_, ?_, ?_⟩
  · intro i j hi hj
    unfold hMatrix
    rw [getD_range_map _ _ hi, getD_range_map _ _ hj]
  · intro i j hi hj
    have hhlen : i < (hMatrix (potentialList s ion) (omegaList c s ion)).length := by
      simpa [hMatrix] using hi
    simp only [bMatrix, rowSums]
    rw [getD_range_map _ _ hi, getD_range_map _ _ hj,
      getD_map_sum _ hhlen]
  · intro m _
    rfl
  · intro res hres k hk
    cases hcond : (omegaList c s ion).any (fun x => x == 0) with
    | true => simp [interaction, hcond] at hres
    | false =>
      simp only [interaction, hcond, Bool.false_eq_true, if_false,
        Except.ok.injEq] at hres
      subst hres
      rw [List.length_take, List.length_drop] at hk
      have hfac : (factorList c.onsager_fuoss
          (bMatrix (potentialList s ion) (omegaList c s ion))
          (r0 (valencesList s ion) (potentialList s ion) (omegaList c s ion))
          (omegaList c s ion).length).length = (omegaList c s ion).length := by
        simp [factorList]
      rw [hfac] at hk
      have hk1 : k < startIndex (ensemble s ion)
          ((ensemble s ion).findIdx (fun i => i.id == ion.id)) +
          ion.valence.length - startIndex (ensemble s ion)
          ((ensemble s ion).findIdx (fun i => i.id == ion.id)) :=
        lt_of_lt_of_le hk (min_le_left _ _)
      have hk2 : startIndex (ensemble s ion)
          ((ensemble s ion).findIdx (fun i => i.id == ion.id)) + k <
          (omegaList c s ion).length := by
        have := lt_of_lt_of_le hk (min_le_right _ _)
        omega
      rw [getD_take _ _ _ hk1, getD_drop]
      unfold factorList
      rw [getD_range_map _ _ hk2]

/-- Claim C1 witness: the concrete sample context, where the successful
interaction slice is (9/13) and equals the coefficient dot product at
the hydronium index offset. -/
theorem claim_C1_witness :
    interaction cEx sEx hydroniumEx = Except.ok [9/13] ∧
    ([(9 : ℚ)/13].getD 0 0 = ((List.range 6).map (fun m =>
      cEx.onsager_fuoss.getD m 0 *
        (rCol (bMatrix (potentialList sEx hydroniumEx)
            (omegaList cEx sEx hydroniumEx))
          (r0 (valencesList sEx hydroniumEx) (potentialList sEx hydroniumEx)
            (omegaList cEx sEx hydroniumEx)) m).getD
          (startIndex (ensemble sEx hydroniumEx)
            ((ensemble sEx hydroniumEx).findIdx
              (fun i => i.id == hydroniumEx.id)) + 0) 0)).sum) :=
  ⟨interactionEx_eval,
    (claim_C1_amended cEx sEx hydroniumEx).2.2.2 [9/13] interactionEx_eval 0
      (by norm_num)⟩

end Ionize
